import Mathlib

/-!
Verification of the bootlogd capture-filter-fanout pipeline (src/bootlogd.c)
against its natural-language specification.

Bytes are modelled as `Nat` (the source processes `unsigned char` values).
The escape-stripping state machine kept in `writelog`'s static `inside_esc`
variable is embedded as `escStep`/`escRun`; the value of `inside_esc` is kept
as a `Nat` exactly as in the source (0 = normal, 1 = after ESC, 2 = inside a
CSI sequence).
-/


/-- Parameter/intermediate bytes of a CSI sequence, as accepted by the
`case '0' ... '9': case ';': case 32 ... 47:` arms of `writelog`. -/

def csParamByte (b : Nat) : Bool :=
  decide ((48 ≤ b ∧ b ≤ 57) ∨ b = 59 ∨ (32 ≤ b ∧ b ≤ 47))

/-- Final bytes of a CSI sequence, as accepted by the
`case 64 ... 126:` arm of `writelog`. -/

def csFinalByte (b : Nat) : Bool :=
  decide (64 ≤ b ∧ b ≤ 126)

/-- One byte of the escape-stripping logic of `writelog` (bootlogd.c:313-357).
Returns `(ignore, inside_esc')`: whether the byte is dropped, and the new
value of the static `inside_esc` variable. -/

def escStep (esc : Nat) (b : Nat) : Bool × Nat :=
  if esc = 1 then
    if b = 91 then (true, 2)
    else if 64 ≤ b ∧ b ≤ 95 then (true, 0)
    else (false, 0)
  else if esc = 2 then
    if csParamByte b then (true, 2)
    else if csFinalByte b then (true, 0)
    else (false, 2)
  else
    if b = 13 then (true, esc)
    else if b = 27 then (true, 1)
    else (false, esc)

/-- Run the escape filter over a byte span, threading `inside_esc`.
Returns the surviving (pass-through) bytes and the final state. -/

def escRun (esc : Nat) : List Nat → List Nat × Nat
  | [] => ([], esc)
  | b :: bs =>
    ((if (escStep esc b).1 then (escRun (escStep esc b).2 bs).1
      else b :: (escRun (escStep esc b).2 bs).1),
     (escRun (escStep esc b).2 bs).2)

/-- Run the escape filter over successive chunks with the state carried over
between calls, exactly as the static `inside_esc` persists between
invocations of `writelog`. -/

def escChunks (esc : Nat) : List (List Nat) → List Nat × Nat
  | [] => ([], esc)
  | c :: cs =>
    ((escRun esc c).1 ++ (escChunks (escRun esc c).2 cs).1,
     (escChunks (escRun esc c).2 cs).2)

/-!
Model of the full per-byte behaviour of `writelog` (bootlogd.c:292-376): the
timestamp prefix decision `*(ptr-1) == '\n' || first_run` (line 303), the
`%.24s` truncation of the `ctime` string followed by `": "` (line 308), and
the escape filter above. The statics `first_run` and `inside_esc` and the
raw byte preceding the current one (`*(ptr-1)`, a byte of the ring buffer)
are carried in `WlState`; `stamps` counts prefixes emitted so far and
indexes the wall-clock oracle `ts`, which supplies the `ctime` string of
each prefix as a byte list. -/

structure WlState where
  first_run : Bool
  inside_esc : Nat
  prevByte : Nat
  stamps : Nat
deriving DecidableEq

/-- The `"%.24s: "` prefix printed by `fprintf` at bootlogd.c:308: at most 24
bytes of the `ctime` string, then `': '` (58) and `' '` (32). -/

def stampText (ts : Nat → List Nat) (n : Nat) : List Nat :=
  (ts n).take 24 ++ [58, 32]

/-- Result of processing one byte in `writelog`: emitted bytes, whether a
timestamp prefix was emitted for this byte, and the updated state. -/

structure WlOut where
  emitted : List Nat
  stamped : Bool
  next : WlState
deriving DecidableEq

/-- One iteration of the `for` loop of `writelog` (bootlogd.c:299-364). -/

def writelogByte (ts : Nat → List Nat) (s : WlState) (b : Nat) : WlOut :=
  let doStamp := (s.prevByte == 10) || s.first_run
  let f := escStep s.inside_esc b
  { emitted := (if doStamp then stampText ts s.stamps else []) ++
      (if f.1 then [] else [b]),
    stamped := doStamp,
    next := { first_run := if doStamp then false else s.first_run,
              inside_esc := f.2,
              prevByte := b,
              stamps := if doStamp then s.stamps + 1 else s.stamps } }

/-- A whole `writelog` call on a byte span: bytes written to the log file
and the updated persistent state. -/

def writelogRun (ts : Nat → List Nat) (s : WlState) : List Nat → List Nat × WlState
  | [] => ([], s)
  | b :: bs =>
    ((writelogByte ts s b).emitted ++ (writelogRun ts (writelogByte ts s b).next bs).1,
     (writelogRun ts (writelogByte ts s b).next bs).2)

/-- State at process start: `first_run = 1`, `inside_esc = 0`, no prefix yet
emitted. `p` models the indeterminate byte read by `*(ptr-1)` before the
first byte ever processed; `first_run` makes the prefix decision true
regardless of its value. -/

def wlInit (p : Nat) : WlState :=
  { first_run := true, inside_esc := 0, prevByte := p, stamps := 0 }

/-- The per-byte timestamp-prefix decisions taken by successive `writelog`
iterations, starting from state `s`. -/

def stampFlags (ts : Nat → List Nat) (s : WlState) : List Nat → List Bool
  | [] => []
  | b :: bs => (writelogByte ts s b).stamped :: stampFlags ts (writelogByte ts s b).next bs

/-- Raw line starts of the original (pre-filter) stream: the first position
iff the byte before it is a newline or nothing was ever processed, every
later position iff the previous raw byte is a newline. Defined on the raw
stream only; no filtering is involved. -/

def rawLineStarts (fr : Bool) (prev : Nat) : List Nat → List Bool
  | [] => []
  | b :: bs => ((prev == 10) || fr) :: rawLineStarts false b bs

/-- The global flags read by the shutdown path (bootlogd.c:61-63): `didnl`
is initialised to 1 at program start and governs the trailing newline at
bootlogd.c:620-625. -/

structure LogGlobals where
  didnl : Nat
deriving DecidableEq

/-- Global state at program start: `int didnl = 1;` (bootlogd.c:61). -/

def globalsInit : LogGlobals := { didnl := 1 }

/-- One `writelog` call as it acts on the globals: the body of `writelog`
(bootlogd.c:292-376) contains no assignment to `didnl`, so the globals pass
through unchanged while the static filter/stamper state advances. -/

def writelogCall (ts : Nat → List Nat) (g : LogGlobals) (s : WlState)
    (bytes : List Nat) : LogGlobals × WlState :=
  (g, (writelogRun ts s bytes).2)

/-- The whole write path of a run: any sequence of `writelog` calls. -/

def writePath (ts : Nat → List Nat) (g : LogGlobals) (s : WlState) :
    List (List Nat) → LogGlobals × WlState
  | [] => (g, s)
  | c :: cs =>
    writePath ts (writelogCall ts g s c).1 (writelogCall ts g s c).2 cs

/-- The shutdown step (bootlogd.c:620-625): `if (!didnl) fputc('\n', fp)`. -/

def shutdownAppended (g : LogGlobals) : List Nat :=
  if g.didnl = 0 then [10] else []

/-!
Model of the capture ring buffer (bootlogd.c:55-58, 540, 577-591, 609-617).
The 1 MiB arena `ringbuf` with `inptr`/`outptr` is embedded with cursors as
offsets into an arena of capacity `cap`; the source instantiates
`cap = 1024 * 1024` (`sizeof(ringbuf)`), and all cursor arithmetic in `main`
is in terms of `endptr - ringbuf`, so the embedding keeps the capacity as a
parameter. A capture models `read(ptm, inptr, endptr - inptr)` followed by
the cursor-update block at bootlogd.c:577-591; a drain models the
`todo`/`writelog` block at bootlogd.c:609-617 together with the
`outptr += len` advance inside `writelog` (bootlogd.c:372-375). -/

structure RingBuf where
  cap : Nat
  arena : Nat → Nat
  inptr : Nat
  outptr : Nat

/-- The buffer at program start: both cursors at the arena base. -/

def ringInit (cap : Nat) : RingBuf :=
  { cap := cap, arena := fun _ => 0, inptr := 0, outptr := 0 }

/-- One capture: `data` is written at `inptr` (the bytes `read` deposited),
then `inptr += n`; `outptr` is dragged to the new `inptr` when the write
crossed it (`inptr - n < outptr && inptr > outptr`); finally both cursors
wrap to the base when they reach the arena end. Callers guarantee
`data.length ≤ cap - inptr` (the `read` is bounded by `endptr - inptr`). -/

def capture (r : RingBuf) (data : List Nat) : RingBuf :=
  { cap := r.cap
    arena := fun p =>
      if r.inptr ≤ p ∧ p < r.inptr + data.length
        then data.getD (p - r.inptr) 0 else r.arena p
    inptr :=
      if r.cap ≤ r.inptr + data.length then 0 else r.inptr + data.length
    outptr :=
      if r.cap ≤ (if r.inptr < r.outptr ∧ r.outptr < r.inptr + data.length
          then r.inptr + data.length else r.outptr)
        then 0
        else (if r.inptr < r.outptr ∧ r.outptr < r.inptr + data.length
          then r.inptr + data.length else r.outptr) }

/-- The number of unread bytes handed to `writelog` in one iteration
(bootlogd.c:609-614): the cursor difference, or the distance from `outptr`
to the arena end when the unread region wraps. -/

def todoLen (r : RingBuf) : Nat :=
  if r.outptr ≤ r.inptr then r.inptr - r.outptr else r.cap - r.outptr

/-- One drain: the `todo` bytes starting at `outptr` are consumed and
`outptr` advances, wrapping at the arena end (bootlogd.c:372-375, 615-617). -/

def drainOnce (r : RingBuf) : List Nat × RingBuf :=
  ((List.range (todoLen r)).map (fun j => r.arena (r.outptr + j)),
   { r with outptr :=
      if r.cap ≤ r.outptr + todoLen r then 0 else r.outptr + todoLen r })

/-- A sequence of captures with no intervening drain (the log handle never
opened, so `writelog` is never called). -/

def captureList (r : RingBuf) : List (List Nat) → RingBuf
  | [] => r
  | c :: cs => captureList (capture r c) cs

/-- Every chunk respects the `read` bound `endptr - inptr` of its call. -/

def boundsOk (r : RingBuf) : List (List Nat) → Bool
  | [] => true
  | c :: cs => (decide (c.length ≤ r.cap - r.inptr)) && boundsOk (capture r c) cs

/-!
Model of the console fan-out write loop (bootlogd.c:545-575) and the
`write_err` recovery routine (bootlogd.c:405-422). Each `write(2)` call on
a console is an oracle event: it accepts some bytes, fails with EIO (the
hang-up case, carrying whether the subsequent non-blocking reopen of the
same path succeeds), or fails with another errno. `gen` numbers the
successive file handles of a target, so delivered bytes can be attributed
to the handle that accepted them. -/

inductive ConsoleEv where
  | ok (k : Nat)
  | hangup (reopenOk : Bool)
  | othererr
deriving DecidableEq

/-- Result of the retry loop for one span on one console: the bytes
accepted per handle generation, whether the target became permanently dead,
the bytes left undelivered, and the final handle generation. -/

structure LoopRes where
  delivered : List (Nat × Nat)
  dead : Bool
  remaining : Nat
  gen : Nat
deriving DecidableEq

/-- The `while (m > 0)` retry loop (bootlogd.c:551-574) for one console:
a nonnegative `write` return advances the span; on failure, `write_err`
(bootlogd.c:405-422) either supplies a fresh handle for the same path
(EIO and reopen succeeded: the loop continues with the remaining bytes) or
returns -1 (EIO with failed reopen, or any other errno), upon which the
target is dead and the loop breaks. -/

def consoleLoop (g m : Nat) : List ConsoleEv → LoopRes
  | [] => { delivered := [], dead := false, remaining := m, gen := g }
  | e :: es =>
    if m = 0 then { delivered := [], dead := false, remaining := 0, gen := g }
    else
      match e with
      | .ok k =>
        { delivered := (g, k) :: (consoleLoop g (m - k) es).delivered,
          dead := (consoleLoop g (m - k) es).dead,
          remaining := (consoleLoop g (m - k) es).remaining,
          gen := (consoleLoop g (m - k) es).gen }
      | .hangup true => consoleLoop (g + 1) m es
      | .hangup false => { delivered := [], dead := true, remaining := m, gen := g }
      | .othererr => { delivered := [], dead := true, remaining := m, gen := g }

/-- One console target: its file descriptor (negative once dead, as in
`cons[considx].fd`) and the model's handle-generation counter. -/

structure ConsTarget where
  fd : Int
  gen : Nat
deriving DecidableEq

/-- The per-target portion of one main-loop iteration (bootlogd.c:545-574):
dead targets (`fd < 0`) are skipped; otherwise the retry loop runs, and if
the target dies, `consoles_left` is decremented and `got_signal` is raised
when it reaches zero (`if (--consoles_left <= 0) got_signal = 1`). Returns
the updated target, the loop result, the new live count and the new
`got_signal` flag. -/

def fanoutStep (t : ConsTarget) (m : Nat) (evs : List ConsoleEv)
    (cl : Nat) (sig : Bool) : ConsTarget × LoopRes × Nat × Bool :=
  if t.fd < 0 then
    (t, { delivered := [], dead := false, remaining := m, gen := t.gen }, cl, sig)
  else
    if (consoleLoop t.gen m evs).dead then
      ({ fd := -1, gen := (consoleLoop t.gen m evs).gen },
       consoleLoop t.gen m evs, cl - 1, sig || decide (cl - 1 = 0))
    else
      ({ fd := t.fd, gen := (consoleLoop t.gen m evs).gen },
       consoleLoop t.gen m evs, cl, sig)

/-!
Projection of the Driver main loop (bootlogd.c:526-618) onto the state the
shutdown decision reads: the console targets, the live count
`consoles_left` and the `got_signal` flag. The loop runs while
`!got_signal`; the flag is set either by the signal handler
(bootlogd.c:96-99, modelled by the `extSig` input of an iteration) or by
the fan-out when the last live console dies (bootlogd.c:570-571). After
the loop exits, the process performs final bookkeeping — the trailing
newline decision and closing of all handles (bootlogd.c:620-631) — which
the driver phase `Draining` stands for. -/

inductive Phase where
  | Running
  | Draining
deriving DecidableEq

/-- Driver state read by the loop condition and the fan-out. -/

structure DrvState where
  targets : List ConsTarget
  consolesLeft : Nat
  gotSignal : Bool

/-- External input of one loop iteration: whether the signal handler ran
(`extSig`), the number of bytes `read` returned, and the per-target write
oracles. -/

structure IterIn where
  extSig : Bool
  readLen : Nat
  evss : List (List ConsoleEv)

/-- The `for (considx = 0; ...)` fan-out over all targets
(bootlogd.c:545-575), threading `consoles_left` and `got_signal`. -/

def fanoutAll (m : Nat) : List ConsTarget → List (List ConsoleEv) → Nat → Bool →
    List ConsTarget × Nat × Bool
  | [], _, cl, sig => ([], cl, sig)
  | t :: ts, evss, cl, sig =>
    ((fanoutStep t m (evss.headD []) cl sig).1 ::
      (fanoutAll m ts evss.tail (fanoutStep t m (evss.headD []) cl sig).2.2.1
        (fanoutStep t m (evss.headD []) cl sig).2.2.2).1,
     (fanoutAll m ts evss.tail (fanoutStep t m (evss.headD []) cl sig).2.2.1
        (fanoutStep t m (evss.headD []) cl sig).2.2.2).2)

/-- One iteration of the main loop body: the fan-out runs on the bytes
read, and the handler may deliver a signal at any point of the iteration
(polled at the top of the next one). -/

def mainIter (s : DrvState) (inp : IterIn) : DrvState :=
  { targets := (fanoutAll inp.readLen s.targets inp.evss s.consolesLeft s.gotSignal).1,
    consolesLeft := (fanoutAll inp.readLen s.targets inp.evss s.consolesLeft s.gotSignal).2.1,
    gotSignal := (fanoutAll inp.readLen s.targets inp.evss s.consolesLeft s.gotSignal).2.2
      || inp.extSig }

/-- The `while (!got_signal)` loop (bootlogd.c:526): the flag is polled at
the top of each iteration; when it is set the loop exits and the process
enters the shutdown bookkeeping (`Draining`). With the iteration inputs
exhausted while the flag is still clear, the driver is still `Running`. -/

def driverRun (s : DrvState) : List IterIn → Phase
  | [] => if s.gotSignal then Phase.Draining else Phase.Running
  | i :: is => if s.gotSignal then Phase.Draining else driverRun (mainIter s i) is

/-- The console-name rewrite performed before opening the fan-out targets
(bootlogd.c:480-487): a discovered name equal to "/dev/tty0" is replaced in
place by "/dev/tty1", then a name equal to "/dev/vc/0" by "/dev/vc/1" (the
two `strcpy` calls run in sequence on the same buffer). -/

def remapConsole (s : String) : String :=
  if (if s = "/dev/tty0" then "/dev/tty1" else s) = "/dev/vc/0"
    then "/dev/vc/1"
    else (if s = "/dev/tty0" then "/dev/tty1" else s)

/-- The device paths actually passed to `open_nb` for the fan-out
(bootlogd.c:488): each discovered console name after the rewrite. -/

def openTargets (names : List String) : List String :=
  names.map remapConsole

theorem escRun_append (s : Nat) (xs ys : List Nat) :
    escRun s (xs ++ ys) =
      ((escRun s xs).1 ++ (escRun (escRun s xs).2 ys).1,
       (escRun (escRun s xs).2 ys).2) := by
  induction xs generalizing s with
  | nil => simp [escRun]
  | cons b bs ih =>
    cases h : (escStep s b).1 <;>
      simp [escRun, h, ih ((escStep s b).2)]

theorem escChunks_flatten (s : Nat) (cs : List (List Nat)) :
    escChunks s cs = escRun s cs.flatten := by
  induction cs generalizing s with
  | nil => simp [escChunks, escRun]
  | cons c cs ih =>
    simp [escChunks, List.flatten, escRun_append, ih]

theorem escRun_params (ps : List Nat) (h : ∀ b ∈ ps, csParamByte b = true) :
    escRun 2 ps = ([], 2) := by
  induction ps with
  | nil => rfl
  | cons b bs ih =>
    have hb : csParamByte b = true := h b (by simp)
    have hstep : escStep 2 b = (true, 2) := by
      simp [escStep, hb]
    simp [escRun, hstep]
    exact ih (fun x hx => h x (by simp [hx]))

theorem escRun_final (fb : Nat) (hf : csFinalByte fb = true) :
    escRun 2 [fb] = ([], 0) := by
  have hp : csParamByte fb = false := by
    simp [csFinalByte] at hf
    simp [csParamByte]
    omega
  have hstep : escStep 2 fb = (true, 0) := by
    simp [escStep, hp, hf]
  simp [escRun, hstep]

theorem escRun_noesc (xs : List Nat) (h : ∀ b ∈ xs, b ≠ 27) :
    escRun 0 xs = (xs.filter (fun b => !(b == 13)), 0) := by
  induction xs with
  | nil => rfl
  | cons b bs ih =>
    have hb : b ≠ 27 := h b (by simp)
    have ihb := ih (fun x hx => h x (by simp [hx]))
    by_cases h13 : b = 13
    · subst h13
      have hstep : escStep 0 13 = (true, 0) := by simp [escStep]
      simp [escRun, hstep, ihb]
    · have hstep : escStep 0 b = (false, 0) := by simp [escStep, h13, hb]
      simp [escRun, hstep, ihb, h13]

example : (escRun 0 [27, 91, 50, 74, 65]).1 = [65] := by decide

example : (escChunks 0 [[27], [91, 50], [74, 65]]).1 = [65] := by decide

example : (escRun 0 [27, 13]).1 = [13] := by decide

theorem escRun_params_final (ps : List Nat) (fb : Nat)
    (hp : ∀ b ∈ ps, csParamByte b = true) (hf : csFinalByte fb = true) :
    escRun 2 (ps ++ [fb]) = ([], 0) := by
  rw [escRun_append, escRun_params ps hp]
  simp [escRun_final fb hf]

/-- Claim C1: a well-formed CSI sequence `ESC '[' <params> <final>` split
arbitrarily across successive filter invocations (state carried over) is
dropped entirely: no byte of the sequence survives, and the filter state
returns to Normal (0) exactly once, after the final byte — every proper
nonempty prefix of the sequence leaves the state away from Normal. -/

theorem csi_chunks_dropped (ps : List Nat) (fb : Nat) (chunks : List (List Nat))
    (hp : ∀ b ∈ ps, csParamByte b = true)
    (hf : csFinalByte fb = true)
    (hj : chunks.flatten = 27 :: 91 :: (ps ++ [fb])) :
    (escChunks 0 chunks).1 = [] ∧ (escChunks 0 chunks).2 = 0 ∧
    ∀ k, 0 < k → k < chunks.flatten.length →
      (escRun 0 (chunks.flatten.take k)).2 ≠ 0 := by
  have h1 : escStep 0 27 = (true, 1) := by decide
  have h2 : escStep 1 91 = (true, 2) := by decide
  have hfull : escRun 0 (27 :: 91 :: (ps ++ [fb])) = ([], 0) := by
    simp [escRun, h1, h2, escRun_params_final ps fb hp hf]
  refine ⟨?_, ?_, ?_⟩
  · rw [escChunks_flatten, hj, hfull]
  · rw [escChunks_flatten, hj, hfull]
  · intro k hk0 hkL
    rw [hj] at hkL ⊢
    rcases k with _ | _ | j
    · omega
    · simp [escRun, h1]
    · have hj2 : j ≤ ps.length := by
        simp only [List.length_cons, List.length_append,
          List.length_singleton, List.length_nil] at hkL
        omega
      have htake : (ps ++ [fb]).take j = ps.take j := by
        rw [List.take_append_of_le_length hj2]
      have hmem : ∀ b ∈ ps.take j, csParamByte b = true :=
        fun b hb => hp b (List.take_subset j ps hb)
      simp only [List.take_succ_cons, htake]
      simp [escRun, h1, h2, escRun_params (ps.take j) hmem]

theorem csi_chunks_dropped_w :
    (escChunks 0 [[27], [91, 50], [74]]).1 = [] ∧
    (escChunks 0 [[27], [91, 50], [74]]).2 = 0 ∧
    (escRun 0 (([[27], [91, 50], [74]] : List (List Nat)).flatten.take 2)).2 ≠ 0 := by
  have h := csi_chunks_dropped [50] 74 [[27], [91, 50], [74]]
    (by decide) (by decide) (by decide)
  exact ⟨h.1, h.2.1, h.2.2 2 (by decide) (by decide)⟩

/-- Claim C5: on a byte span with no ESC (27) byte, the filter removes
exactly the carriage returns (13) and passes everything else through, for
any chunking of the span across successive invocations. -/

theorem noesc_chunks_filter (chunks : List (List Nat))
    (h : ∀ b ∈ chunks.flatten, b ≠ 27) :
    (escChunks 0 chunks).1 = chunks.flatten.filter (fun b => !(b == 13)) ∧
    (escChunks 0 chunks).2 = 0 := by
  rw [escChunks_flatten, escRun_noesc _ h]
  exact ⟨rfl, rfl⟩

theorem noesc_chunks_filter_w :
    (escChunks 0 [[65, 13], [10, 66]]).1 =
      ([[65, 13], [10, 66]] : List (List Nat)).flatten.filter (fun b => !(b == 13)) ∧
    (escChunks 0 [[65, 13], [10, 66]]).2 = 0 :=
  noesc_chunks_filter [[65, 13], [10, 66]] (by decide)

/-- Claim C8 counterexample: the span [13] is complete filter output (of the
input [27, 13], a run starting and ending in the Normal state) and contains
no ESC byte — hence no escape sequence — yet filtering it again removes the
byte. The filter is not a fixed point on all escape-sequence-free filter
output: a carriage return can leak into the output through the
`inside_esc == 1` state and is removed by a second pass. -/

theorem filter_not_fixed_cex :
    (escRun 0 [27, 13]).1 = [13] ∧ (escRun 0 [27, 13]).2 = 0 ∧
    (∀ b ∈ (escRun 0 [27, 13]).1, b ≠ 27) ∧
    (escRun 0 (escRun 0 [27, 13]).1).1 ≠ (escRun 0 [27, 13]).1 := by
  decide

/-- Claim C8 (amended): filtering is idempotent on the output of filtering a
span that contains no ESC byte — such output contains neither ESC nor
carriage-return bytes, and any such span is a fixed point. (The original
claim fails only for filter output containing a carriage return leaked from
the EscapeStart state; see the counterexample.) -/

theorem filter_idem_on_escfree (xs : List Nat) (h : ∀ b ∈ xs, b ≠ 27) :
    escRun 0 (escRun 0 xs).1 = ((escRun 0 xs).1, 0) := by
  have h1 := escRun_noesc xs h
  have hys : (escRun 0 xs).1 = xs.filter (fun b => !(b == 13)) := by rw [h1]
  have h2 : ∀ b ∈ (escRun 0 xs).1, b ≠ 27 := by
    intro b hb
    rw [hys] at hb
    exact h b (List.mem_filter.mp hb).1
  have h3 : ∀ b ∈ (escRun 0 xs).1, (!(b == 13)) = true := by
    intro b hb
    rw [hys] at hb
    exact (List.mem_filter.mp hb).2
  rw [escRun_noesc _ h2, List.filter_eq_self.mpr h3]

theorem filter_idem_on_escfree_w :
    escRun 0 (escRun 0 [65, 13, 66]).1 = ((escRun 0 [65, 13, 66]).1, 0) :=
  filter_idem_on_escfree [65, 13, 66] (by decide)

/-- Claim C6: feeding `"A\nB"` (65, 10, 66) to `writelog` as a single call at
process start yields `"<ts1>: A\n<ts2>: B"`, where each prefix is the first
24 bytes of the wall-clock string followed by `": "` — one prefix per line,
the first present although no newline precedes the first byte. -/

theorem stamp_two_lines (ts : Nat → List Nat) (p : Nat)
    (h0 : 24 ≤ (ts 0).length) (h1 : 24 ≤ (ts 1).length) :
    (writelogRun ts (wlInit p) [65, 10, 66]).1 =
      (ts 0).take 24 ++ [58, 32, 65, 10] ++ (ts 1).take 24 ++ [58, 32, 66] ∧
    ((ts 0).take 24).length = 24 ∧ ((ts 1).take 24).length = 24 := by
  refine ⟨?_, ?_, ?_⟩
  · have e1 : escStep 0 65 = (false, 0) := by decide
    have e2 : escStep 0 10 = (false, 0) := by decide
    have e3 : escStep 0 66 = (false, 0) := by decide
    simp [writelogRun, writelogByte, wlInit, stampText, e1, e2, e3]
  · simp [List.length_take]
    omega
  · simp [List.length_take]
    omega

theorem stamp_two_lines_w :
    (writelogRun (fun _ => List.replicate 26 88) (wlInit 0) [65, 10, 66]).1 =
      (List.replicate 26 88).take 24 ++ [58, 32, 65, 10] ++
        (List.replicate 26 88).take 24 ++ [58, 32, 66] ∧
    ((List.replicate 26 88).take 24).length = 24 ∧
    ((List.replicate 26 88).take 24).length = 24 :=
  stamp_two_lines (fun _ => List.replicate 26 88) 0 (by decide) (by decide)

/-- Claim C9: the timestamp-prefix decision of `writelog` is made on the
raw, pre-filter stream: for every state (in particular for every value of
`inside_esc`) the decision sequence equals the raw line starts, computed
from the previous raw byte alone — so a byte dropped by the filter still
carries its prefix, and a line whose bytes are all filtered out still
receives one. The second conjunct shows the prefix is part of the emitted
bytes even when the byte itself is dropped. -/

theorem stamp_decision_raw (ts : Nat → List Nat) (s : WlState) (bytes : List Nat) :
    stampFlags ts s bytes = rawLineStarts s.first_run s.prevByte bytes ∧
    ∀ b, (writelogByte ts s b).emitted =
      (if (writelogByte ts s b).stamped then stampText ts s.stamps else []) ++
      (if (escStep s.inside_esc b).1 then [] else [b]) := by
  constructor
  · induction bytes generalizing s with
    | nil => rfl
    | cons b bs ih =>
      have hfr : (writelogByte ts s b).next.first_run = false := by
        cases hs : ((s.prevByte == 10) || s.first_run) with
        | true => simp [writelogByte, hs]
        | false =>
          have h2 : s.first_run = false := (Bool.or_eq_false_iff.mp hs).2
          simp [writelogByte, hs, h2]
      have hpv : (writelogByte ts s b).next.prevByte = b := by
        simp [writelogByte]
      have hhd : (writelogByte ts s b).stamped = ((s.prevByte == 10) || s.first_run) := by
        simp [writelogByte]
      simp only [stampFlags, rawLineStarts, hhd]
      rw [ih, hfr, hpv]
  · intro b
    rfl

theorem writePath_globals (ts : Nat → List Nat) (calls : List (List Nat)) :
    ∀ g s, (writePath ts g s calls).1 = g := by
  induction calls with
  | nil => intro g s; rfl
  | cons c cs ih => intro g s; exact ih g _

/-- Claim C7: `didnl` is initialised once (to 1) and never updated anywhere
on the write path, so after any sequence of `writelog` calls on any input
whatsoever it still equals 1, and the shutdown step therefore never appends
the trailing newline — whatever bytes the stream actually ended with. -/

theorem didnl_constant (ts : Nat → List Nat) (p : Nat) (calls : List (List Nat)) :
    (writePath ts globalsInit (wlInit p) calls).1.didnl = 1 ∧
    shutdownAppended (writePath ts globalsInit (wlInit p) calls).1 = [] := by
  have h := writePath_globals ts calls globalsInit (wlInit p)
  rw [h]
  exact ⟨rfl, rfl⟩

/-- Claim C2 counterexample: with capacity 4, capturing 4 then 2 bytes (6 =
C + K with K = 2, each capture bounded by the distance to the arena end,
never draining) leaves `outptr = 0` and `inptr = 2`: the read cursor does
NOT equal the write cursor after the overwrite (it lags by K), and a drain
recovers only the 2 most recent bytes [5, 6], not the most recent 4 bytes
[3, 4, 5, 6]. The drag condition `inptr - n < outptr` is never true while
`outptr` is 0, so the drop-oldest snap never fires in a never-drained
buffer. -/

theorem ring_overwrite_cex :
    boundsOk (ringInit 4) [[1, 2, 3, 4], [5, 6]] = true ∧
    (([[1, 2, 3, 4], [5, 6]] : List (List Nat)).flatten).length = 4 + 2 ∧
    (captureList (ringInit 4) [[1, 2, 3, 4], [5, 6]]).outptr = 0 ∧
    (captureList (ringInit 4) [[1, 2, 3, 4], [5, 6]]).inptr = 2 ∧
    (captureList (ringInit 4) [[1, 2, 3, 4], [5, 6]]).outptr ≠
      (captureList (ringInit 4) [[1, 2, 3, 4], [5, 6]]).inptr ∧
    (drainOnce (captureList (ringInit 4) [[1, 2, 3, 4], [5, 6]])).1 = [5, 6] ∧
    (drainOnce (captureList (ringInit 4) [[1, 2, 3, 4], [5, 6]])).1 ≠ [3, 4, 5, 6] := by
  decide

theorem getD_range_map (f : Nat → Nat) (t j : Nat) (h : j < t) :
    ((List.range t).map f).getD j 0 = f j := by
  have hlen : j < ((List.range t).map f).length := by
    simpa using h
  rw [List.getD_eq_getElem _ _ hlen]
  simp

theorem capture_inv (cap : Nat) (hc : 0 < cap) (r : RingBuf) (stream c : List Nat)
    (h1 : r.cap = cap) (h2 : r.outptr = 0)
    (h3 : r.inptr = stream.length % cap)
    (h4 : ∀ p, p + cap < stream.length → r.arena p = stream.getD (p + cap) 0)
    (hb : c.length ≤ cap - r.inptr)
    (h2c : stream.length + c.length ≤ 2 * cap) :
    (capture r c).cap = cap ∧ (capture r c).outptr = 0 ∧
    (capture r c).inptr = (stream ++ c).length % cap ∧
    (∀ p, p + cap < (stream ++ c).length →
      (capture r c).arena p = (stream ++ c).getD (p + cap) 0) := by
  have hold : r.inptr < cap := by
    rw [h3]
    exact Nat.mod_lt _ hc
  have hle : r.inptr + c.length ≤ cap := by omega
  refine ⟨h1, ?_, ?_, ?_⟩
  · simp only [capture, h2]
    have hdrag : ¬(r.inptr < 0 ∧ (0 : Nat) < r.inptr + c.length) := by omega
    rw [if_neg hdrag, if_neg (by omega)]
  · simp only [capture, List.length_append]
    have hmod : (stream.length + c.length) % cap = (r.inptr + c.length) % cap := by
      rw [h3, Nat.mod_add_mod]
    rw [h1]
    by_cases hw : cap ≤ r.inptr + c.length
    · have heq : r.inptr + c.length = cap := by omega
      rw [if_pos hw, hmod, heq, Nat.mod_self]
    · rw [if_neg hw, hmod, Nat.mod_eq_of_lt (by omega)]
  · intro p hp
    simp only [List.length_append] at hp
    by_cases hlen : c.length = 0
    · have hceq : c = [] := List.length_eq_zero.mp hlen
      subst hceq
      simp only [capture]
      rw [if_neg (by omega)]
      simp only [List.append_nil]
      exact h4 p (by simpa using hp)
    · have ht2 : stream.length < 2 * cap := by omega
      by_cases htc : stream.length < cap
      · -- before any wrap the written span ends at or before the arena end,
        -- so no position of the form p + cap is touched yet
        have : r.inptr = stream.length := by
          rw [h3, Nat.mod_eq_of_lt htc]
        omega
      · have hmod2 : r.inptr = stream.length - cap := by
          rw [h3, Nat.mod_eq_sub_mod (by omega), Nat.mod_eq_of_lt (by omega)]
        simp only [capture]
        by_cases hw : r.inptr ≤ p ∧ p < r.inptr + c.length
        · rw [if_pos hw]
          have hge : stream.length ≤ p + cap := by omega
          have hga : (stream ++ c).getD (p + cap) 0 =
              c.getD (p + cap - stream.length) 0 :=
            List.getD_append_right _ _ _ _ hge
          rw [hga]
          congr 1
          omega
        · rw [if_neg hw]
          have hplt : p + cap < stream.length := by omega
          have hga : (stream ++ c).getD (p + cap) 0 = stream.getD (p + cap) 0 :=
            List.getD_append _ _ _ _ hplt
          rw [hga]
          exact h4 p hplt

theorem captureList_inv (cap : Nat) (hc : 0 < cap) :
    ∀ (chunks : List (List Nat)) (r : RingBuf) (stream : List Nat),
    r.cap = cap → r.outptr = 0 → r.inptr = stream.length % cap →
    (∀ p, p + cap < stream.length → r.arena p = stream.getD (p + cap) 0) →
    boundsOk r chunks = true →
    stream.length + chunks.flatten.length ≤ 2 * cap →
    (captureList r chunks).cap = cap ∧ (captureList r chunks).outptr = 0 ∧
    (captureList r chunks).inptr = (stream ++ chunks.flatten).length % cap ∧
    (∀ p, p + cap < (stream ++ chunks.flatten).length →
      (captureList r chunks).arena p = (stream ++ chunks.flatten).getD (p + cap) 0) := by
  intro chunks
  induction chunks with
  | nil =>
    intro r stream e1 e2 e3 e4 _ _
    simp only [captureList, List.flatten_nil, List.append_nil]
    exact ⟨e1, e2, e3, e4⟩
  | cons c cs ih =>
    intro r stream e1 e2 e3 e4 hbnd htot
    simp only [boundsOk, Bool.and_eq_true, decide_eq_true_eq] at hbnd
    obtain ⟨hb1, hb2⟩ := hbnd
    rw [e1] at hb1
    simp only [List.flatten_cons, List.length_append] at htot
    obtain ⟨s1, s2, s3, s4⟩ := capture_inv cap hc r stream c e1 e2 e3 e4 hb1 (by omega)
    have := ih (capture r c) (stream ++ c) s1 s2 s3 s4 hb2
      (by simp only [List.length_append]; omega)
    simpa [captureList, List.flatten_cons, List.append_assoc] using this

/-- Claim C2 (amended): starting from an empty buffer of capacity C never
drained, after captures totalling C + K bytes (0 < K < C, each capture
bounded by the distance from the write cursor to the arena end, cursors
wrapping at the end), the read cursor stays at the arena base — it does NOT
equal the write cursor, which sits at K, because the snap condition
`inptr - n < outptr` can never hold while `outptr` is 0 — and a single
drain recovers exactly the K most recent bytes (the j-th drained byte is
byte C + j of the captured stream), after which nothing is recoverable:
the most recent C bytes of the claim are not recoverable, only the most
recent K. -/

theorem ring_overwrite_amended (cap K : Nat) (chunks : List (List Nat))
    (hc : 0 < cap) (hK0 : 0 < K) (hK : K < cap)
    (hb : boundsOk (ringInit cap) chunks = true)
    (ht : chunks.flatten.length = cap + K) :
    (captureList (ringInit cap) chunks).outptr = 0 ∧
    (captureList (ringInit cap) chunks).inptr = K ∧
    (drainOnce (captureList (ringInit cap) chunks)).1.length = K ∧
    (∀ j, j < K → (drainOnce (captureList (ringInit cap) chunks)).1.getD j 0 =
      chunks.flatten.getD (cap + j) 0) ∧
    todoLen (drainOnce (captureList (ringInit cap) chunks)).2 = 0 := by
  obtain ⟨hcap, hout, hin, harena⟩ := captureList_inv cap hc chunks (ringInit cap) []
    rfl rfl (by simp [ringInit]) (by intro p hp; simp at hp) hb
    (by simp [ht]; omega)
  simp only [List.nil_append] at hin harena
  rw [ht] at hin
  rw [Nat.add_mod_left, Nat.mod_eq_of_lt hK] at hin
  have htodo : todoLen (captureList (ringInit cap) chunks) = K := by
    unfold todoLen
    rw [hin, hout]
    simp
  refine ⟨hout, hin, ?_, ?_, ?_⟩
  · simp [drainOnce, htodo]
  · intro j hj
    simp only [drainOnce]
    rw [htodo, getD_range_map _ _ _ hj, hout, Nat.zero_add]
    have harj := harena j (by omega)
    rw [Nat.add_comm j cap] at harj
    exact harj
  · have hout2 : (drainOnce (captureList (ringInit cap) chunks)).2.outptr = K := by
      simp only [drainOnce]
      rw [hout, htodo, hcap, Nat.zero_add, if_neg (by omega)]
    have hin2 : (drainOnce (captureList (ringInit cap) chunks)).2.inptr = K := by
      simp only [drainOnce]
      exact hin
    unfold todoLen
    rw [hout2, hin2]
    simp

theorem ring_overwrite_amended_w :
    (captureList (ringInit 4) [[1, 2, 3, 4], [5, 6]]).outptr = 0 ∧
    (captureList (ringInit 4) [[1, 2, 3, 4], [5, 6]]).inptr = 2 ∧
    (drainOnce (captureList (ringInit 4) [[1, 2, 3, 4], [5, 6]])).1.length = 2 ∧
    (drainOnce (captureList (ringInit 4) [[1, 2, 3, 4], [5, 6]])).1.getD 0 0 =
      (([[1, 2, 3, 4], [5, 6]] : List (List Nat)).flatten).getD 4 0 ∧
    todoLen (drainOnce (captureList (ringInit 4) [[1, 2, 3, 4], [5, 6]])).2 = 0 := by
  have h := ring_overwrite_amended 4 2 [[1, 2, 3, 4], [5, 6]]
    (by decide) (by decide) (by decide) (by decide) (by decide)
  exact ⟨h.1, h.2.1, h.2.2.1, by
    have := h.2.2.2.1 0 (by decide)
    simpa using this, h.2.2.2.2⟩

/-- Claim C3: a span interrupted by a device hang-up (EIO) after a partial
write is resumed on the freshly reopened handle of the same path: with the
oracle "accept 40, hang up (reopen succeeds), accept 60", the target
observes 40 bytes on the original handle and the remaining 60 on the next
one — 100 in total, nothing left over, and the target stays alive. If the
reopen fails, or the write error is not a hang-up, the target is
permanently dead with nothing further written, a dead target is skipped
without any write for the rest of the run, and its death decrements the
live-target count. -/

theorem console_hangup_retry (m g : Nat) (es : List ConsoleEv) (hm : 0 < m) :
    (consoleLoop g 100 [.ok 40, .hangup true, .ok 60] =
      { delivered := [(g, 40), (g + 1, 60)], dead := false, remaining := 0, gen := g + 1 }) ∧
    ((consoleLoop g 100 [.ok 40, .hangup true, .ok 60]).delivered.map
      (fun x => x.2)).sum = 100 ∧
    (consoleLoop g m (.hangup false :: es) =
      { delivered := [], dead := true, remaining := m, gen := g }) ∧
    (consoleLoop g m (.othererr :: es) =
      { delivered := [], dead := true, remaining := m, gen := g }) ∧
    (∀ t cl sig, t.fd < 0 → fanoutStep t m es cl sig =
      (t, { delivered := [], dead := false, remaining := m, gen := t.gen }, cl, sig)) ∧
    (∀ t cl sig, 0 ≤ t.fd → (consoleLoop t.gen m es).dead = true →
      (fanoutStep t m es cl sig).2.2.1 = cl - 1) := by
  have hm' : m ≠ 0 := by omega
  refine ⟨?_, ?_, ?_, ?_, ?_, ?_⟩
  · simp [consoleLoop]
  · simp [consoleLoop]
  · simp [consoleLoop, hm']
  · simp [consoleLoop, hm']
  · intro t cl sig hfd
    simp [fanoutStep, hfd]
  · intro t cl sig hfd hdead
    have hnot : ¬t.fd < 0 := by omega
    simp [fanoutStep, hnot, hdead]

theorem console_hangup_retry_w :
    consoleLoop 0 1 [ConsoleEv.hangup false] =
      { delivered := [], dead := true, remaining := 1, gen := 0 } :=
  (console_hangup_retry 1 0 [] (by decide)).2.2.1

theorem fanoutStep_cl_sig (t : ConsTarget) (m : Nat) (evs : List ConsoleEv)
    (cl : Nat) (sig : Bool) (hinv : cl = 0 → sig = true) :
    (fanoutStep t m evs cl sig).2.2.1 = 0 → (fanoutStep t m evs cl sig).2.2.2 = true := by
  unfold fanoutStep
  split_ifs with hfd hd
  · exact hinv
  · intro hz
    simp only at hz ⊢
    simp [hz]
  · exact hinv

theorem fanoutAll_zero_sig (m : Nat) (ts : List ConsTarget) :
    ∀ (evss : List (List ConsoleEv)) (cl : Nat) (sig : Bool),
    (cl = 0 → sig = true) →
    (fanoutAll m ts evss cl sig).2.1 = 0 → (fanoutAll m ts evss cl sig).2.2 = true := by
  induction ts with
  | nil =>
    intro evss cl sig hinv hz
    exact hinv hz
  | cons t ts ih =>
    intro evss cl sig hinv
    simp only [fanoutAll]
    exact ih evss.tail _ _ (fanoutStep_cl_sig t m (evss.headD []) cl sig hinv)

/-- Claim C4: when console write failures reduce the live-target count to
zero during an iteration, the `got_signal` flag is set by the fan-out
itself and the main loop exits to the shutdown bookkeeping (`Draining`)
on its next check, although no external termination signal was delivered
in this or any later iteration. -/

theorem all_consoles_lost_draining (s : DrvState) (inp : IterIn) (ins : List IterIn)
    (hext : inp.extSig = false) (hall : ∀ i ∈ ins, i.extSig = false)
    (hs : s.gotSignal = false) (hcl : 0 < s.consolesLeft)
    (hdead : (mainIter s inp).consolesLeft = 0) :
    (mainIter s inp).gotSignal = true ∧
    driverRun s (inp :: ins) = Phase.Draining := by
  have hsig : (mainIter s inp).gotSignal = true := by
    simp only [mainIter, hext, Bool.or_false]
    simp only [mainIter] at hdead
    exact fanoutAll_zero_sig _ _ _ _ _ (by omega) hdead
  refine ⟨hsig, ?_⟩
  have hstep : driverRun s (inp :: ins) = driverRun (mainIter s inp) ins := by
    simp [driverRun, hs]
  rw [hstep]
  cases ins with
  | nil => simp [driverRun, hsig]
  | cons i is => simp [driverRun, hsig]

theorem all_consoles_lost_draining_w :
    (mainIter { targets := [{ fd := 0, gen := 0 }], consolesLeft := 1, gotSignal := false }
      { extSig := false, readLen := 5, evss := [[ConsoleEv.othererr]] }).gotSignal = true ∧
    driverRun { targets := [{ fd := 0, gen := 0 }], consolesLeft := 1, gotSignal := false }
      [{ extSig := false, readLen := 5, evss := [[ConsoleEv.othererr]] }] = Phase.Draining :=
  all_consoles_lost_draining _ _ []
    rfl (by intro i hi; simp at hi) rfl (by decide) (by decide)

theorem remapConsole_avoids (s : String) :
    remapConsole s ≠ "/dev/tty0" ∧ remapConsole s ≠ "/dev/vc/0" := by
  unfold remapConsole
  by_cases h1 : s = "/dev/tty0"
  · simp [h1]
  · by_cases h2 : s = "/dev/vc/0"
    · simp [h1, h2]
    · simp [h1, h2]

/-- Claim C10: a discovered console path "/dev/tty0" (resp. "/dev/vc/0") is
opened as "/dev/tty1" (resp. "/dev/vc/1"), and neither "/dev/tty0" nor
"/dev/vc/0" ever appears among the opened fan-out targets, whatever console
discovery yields. -/

theorem tty0_remap :
    remapConsole "/dev/tty0" = "/dev/tty1" ∧
    remapConsole "/dev/vc/0" = "/dev/vc/1" ∧
    (∀ s, remapConsole s ≠ "/dev/tty0" ∧ remapConsole s ≠ "/dev/vc/0") ∧
    (∀ names, openTargets names = names.map remapConsole ∧
      "/dev/tty0" ∉ openTargets names ∧ "/dev/vc/0" ∉ openTargets names) := by
  refine ⟨by decide, by decide, remapConsole_avoids, ?_⟩
  intro names
  refine ⟨rfl, ?_, ?_⟩
  · intro hmem
    obtain ⟨s, _, hs⟩ := List.mem_map.mp hmem
    exact (remapConsole_avoids s).1 hs
  · intro hmem
    obtain ⟨s, _, hs⟩ := List.mem_map.mp hmem
    exact (remapConsole_avoids s).2 hs
